import Mathlib

/-!
Verification model of `src/iroh/examples/transfer.rs` (the bulk-transfer
example of the iroh repository).  The transfer-specific logic of the example
is embedded shallowly: the chunked writer `send_data_on_stream`, the chunked
reader `drain_stream` (both arms), the provider accept loop, the tail of
`fetch` (close-with-timeout followed by the throughput report), and — modelled
from the spec, because they live in the iroh crate outside the examined
sources — the address-ticket codec and the node-id rendering used by the
greeting.
-/

namespace Transfer

/-! ### ChunkedStreamWriter: `send_data_on_stream` (transfer.rs lines 282-313) -/

/-- Fixed chunk size: `DATA.len()` where `DATA: &[u8] = &[0xAB; 1024 * 1024]`. -/
def CHUNK : Nat := 1024 * 1024

/-- The constant filler buffer `DATA = [0xAB; 1024 * 1024]`. -/
def DATA : List Nat := List.replicate CHUNK 0xAB

/-- Chunks written by `send_data_on_stream stream_size`: `full_chunks`
copies of `DATA` (the `for _ in 0..full_chunks` loop), then, when
`remaining != 0`, one final chunk `bytes_data.slice(0..remaining)`.
`CHUNK` stands for the source's `DATA.len() as u64`. -/
def sendChunks (stream_size : Nat) : List (List Nat) :=
  let full_chunks := stream_size / CHUNK
  let remaining := stream_size % CHUNK
  List.replicate full_chunks DATA ++ (if remaining ≠ 0 then [DATA.take remaining] else [])

theorem DATA_length : DATA.length = CHUNK := by
  simp [DATA]

theorem sendChunks_lengths (S : Nat) :
    (sendChunks S).map List.length
      = List.replicate (S / CHUNK) CHUNK ++ (if S % CHUNK ≠ 0 then [S % CHUNK] else []) := by
  have hrem : (DATA.take (S % CHUNK)).length = S % CHUNK := by
    rw [List.length_take, DATA_length]
    exact Nat.min_eq_left (Nat.le_of_lt (Nat.mod_lt _ (by norm_num [CHUNK])))
  unfold sendChunks
  by_cases h : S % CHUNK = 0 <;>
    simp [h, List.map_append, List.map_replicate, DATA_length, hrem]

/-- C2: for every payload size `S`, the writer emits exactly `S / CHUNK` full
chunks of size `CHUNK = 1` MiB followed by one final chunk of `S % CHUNK`
bytes exactly when `S % CHUNK ≠ 0`, and nothing else; the total number of
bytes written is `S`. -/
theorem send_chunking_correct (S : Nat) :
    (sendChunks S).map List.length
      = List.replicate (S / CHUNK) CHUNK ++ (if S % CHUNK ≠ 0 then [S % CHUNK] else []) ∧
    ((sendChunks S).map List.length).sum = S := by
  refine ⟨sendChunks_lengths S, ?_⟩
  rw [sendChunks_lengths S]
  have hmod := Nat.div_add_mod S CHUNK
  by_cases h : S % CHUNK = 0
  · simp only [h, ne_eq, not_true_eq_false, if_false, List.append_nil,
      List.sum_replicate, smul_eq_mul]
    rw [Nat.mul_comm]
    omega
  · simp only [h, ne_eq, not_false_eq_true, if_true, List.sum_append,
      List.sum_replicate, smul_eq_mul, List.sum_cons, List.sum_nil, Nat.add_zero]
    rw [Nat.mul_comm]
    omega

/-! ### ChunkedStreamReader: `drain_stream` (transfer.rs lines 234-280)

The stream is modelled by the list of successful read calls the loop
performs before `read_chunk` / `read_chunks` returns `None`.  Each event
carries the value of `download_start.elapsed()` observed at that call and
the chunk bytes delivered by it; in the unordered arm each call returns one
chunk, in the ordered arm each call fills the first `n` of the 32 reusable
buffers with the delivered chunks. -/

/-- The triple `(read, time_to_first_byte, num_chunks)` returned by
`drain_stream`. -/
structure DrainResult where
  read : Nat
  time_to_first_byte : Nat
  num_chunks : Nat

/-- The mutable locals of `drain_stream` shared by both arms. -/
structure DrainState where
  read : Nat
  first_byte : Bool
  time_to_first_byte : Nat
  num_chunks : Nat

/-- The mutable locals of the ordered arm: the shared ones plus the pool
`bufs` of 32 reusable buffers. -/
structure OrderedState where
  read : Nat
  first_byte : Bool
  time_to_first_byte : Nat
  num_chunks : Nat
  bufs : List (List Nat)

/-- Initial locals: `read = 0`, `first_byte = true`,
`time_to_first_byte = download_start.elapsed()` (still zero), `num_chunks = 0`. -/
def initialDrainState : DrainState :=
  { read := 0, first_byte := true, time_to_first_byte := 0, num_chunks := 0 }

/-- Initial ordered locals: the 32 buffers start as `Bytes::new()` (empty). -/
def initialOrderedState : OrderedState :=
  { read := 0, first_byte := true, time_to_first_byte := 0, num_chunks := 0,
    bufs := List.replicate 32 [] }

/-- One iteration of the unordered arm: `ev = (elapsed, chunk bytes)` for a
successful `read_chunk(usize::MAX, false)` call. -/
def unorderedStep (s : DrainState) (ev : Nat × List Nat) : DrainState :=
  let s1 := if s.first_byte then { s with time_to_first_byte := ev.1, first_byte := false } else s
  { s1 with read := s1.read + ev.2.length, num_chunks := s1.num_chunks + 1 }

/-- One iteration of the ordered arm: `ev = (elapsed, chunks)` for a
successful `read_chunks(&mut bufs[..])` call that wrote the delivered chunks
into the first `n = chunks.length` buffers (the remaining buffers keep their
previous contents); `read` grows by `bufs.iter().take(n).map(len).sum()`. -/
def orderedStep (s : OrderedState) (ev : Nat × List (List Nat)) : OrderedState :=
  let n := ev.2.length
  let bufs1 := ev.2 ++ s.bufs.drop n
  let s1 := if s.first_byte then { s with time_to_first_byte := ev.1, first_byte := false } else s
  { s1 with
    read := s1.read + ((bufs1.take n).map List.length).sum,
    num_chunks := s1.num_chunks + 1,
    bufs := bufs1 }

/-- The `read_unordered = true` arm of `drain_stream`. -/
def drainUnordered (events : List (Nat × List Nat)) : DrainResult :=
  let s := events.foldl unorderedStep initialDrainState
  { read := s.read, time_to_first_byte := s.time_to_first_byte, num_chunks := s.num_chunks }

/-- The `read_unordered = false` arm of `drain_stream` (the one `fetch` uses). -/
def drainOrdered (events : List (Nat × List (List Nat))) : DrainResult :=
  let s := events.foldl orderedStep initialOrderedState
  { read := s.read, time_to_first_byte := s.time_to_first_byte, num_chunks := s.num_chunks }

theorem unorderedStep_read (s : DrainState) (ev : Nat × List Nat) :
    (unorderedStep s ev).read = s.read + ev.2.length := by
  cases h : s.first_byte <;> simp [unorderedStep, h]

theorem orderedStep_read (s : OrderedState) (ev : Nat × List (List Nat)) :
    (orderedStep s ev).read = s.read + (ev.2.map List.length).sum := by
  have ht : (ev.2 ++ s.bufs.drop ev.2.length).take ev.2.length = ev.2 :=
    List.take_left ev.2 _
  cases h : s.first_byte <;> simp [orderedStep, h, ht]

theorem foldl_unordered_read (events : List (Nat × List Nat)) :
    ∀ s : DrainState,
      (events.foldl unorderedStep s).read
        = s.read + ((events.map Prod.snd).map List.length).sum := by
  induction events with
  | nil => intro s; simp
  | cons e es ih =>
    intro s
    simp only [List.foldl_cons, List.map_cons, List.sum_cons]
    rw [ih, unorderedStep_read]
    omega

theorem foldl_ordered_read (events : List (Nat × List (List Nat))) :
    ∀ s : OrderedState,
      (events.foldl orderedStep s).read
        = s.read + (((events.map Prod.snd).flatten).map List.length).sum := by
  induction events with
  | nil => intro s; simp
  | cons e es ih =>
    intro s
    simp only [List.foldl_cons, List.map_cons, List.flatten_cons, List.map_append,
      List.sum_append]
    rw [ih, orderedStep_read]
    omega

theorem foldl_unordered_ttfb (events : List (Nat × List Nat)) :
    ∀ s : DrainState, s.first_byte = false →
      (events.foldl unorderedStep s).time_to_first_byte = s.time_to_first_byte := by
  induction events with
  | nil => intro s _; rfl
  | cons e es ih =>
    intro s h
    simp only [List.foldl_cons]
    rw [ih (unorderedStep s e) (by simp [unorderedStep, h])]
    simp [unorderedStep, h]

theorem foldl_ordered_ttfb (events : List (Nat × List (List Nat))) :
    ∀ s : OrderedState, s.first_byte = false →
      (events.foldl orderedStep s).time_to_first_byte = s.time_to_first_byte := by
  induction events with
  | nil => intro s _; rfl
  | cons e es ih =>
    intro s h
    simp only [List.foldl_cons]
    rw [ih (orderedStep s e) (by simp [orderedStep, h])]
    simp [orderedStep, h]

/-- C5: with payload size 0 the writer emits no chunks — only the stream
finish and the stop wait remain — and draining the resulting empty stream
(`read_chunks` returns `None` at once, so no loop iteration runs) reports
`bytes_received = 0` and `chunk_count = 0`. -/
theorem size_zero_transfer :
    sendChunks 0 = [] ∧
    (drainOrdered []).read = 0 ∧ (drainOrdered []).num_chunks = 0 :=
  ⟨rfl, rfl, rfl⟩

/-- C6: the ordered drain (32 reusable buffers, summing only the buffers
populated in each call) and the unordered drain (per-chunk reads, chunks
delivered in any order) report the same cumulative `bytes_received` whenever
they drain the same transferred stream content: the ordered arm receives the
content in order, split into batches of at most 32 chunks per call, while
the unordered arm receives a permutation of some fragmentation of the same
content. -/
theorem ordered_unordered_bytes_agree
    (orderedEvents : List (Nat × List (List Nat)))
    (unorderedEvents : List (Nat × List Nat))
    (content : List Nat)
    (hb : ∀ ev ∈ orderedEvents, ev.2.length ≤ 32)
    (ho : ((orderedEvents.map Prod.snd).flatten).flatten = content)
    (hu : ∃ frags : List (List Nat),
        List.Perm frags (unorderedEvents.map Prod.snd) ∧ frags.flatten = content) :
    (drainOrdered orderedEvents).read = (drainUnordered unorderedEvents).read := by
  obtain ⟨frags, hperm, hjoin⟩ := hu
  have h1 : (drainOrdered orderedEvents).read = content.length := by
    show (orderedEvents.foldl orderedStep initialOrderedState).read = content.length
    rw [foldl_ordered_read]
    simp only [initialOrderedState, Nat.zero_add]
    rw [← List.length_flatten, ho]
  have h2 : (drainUnordered unorderedEvents).read = content.length := by
    show (unorderedEvents.foldl unorderedStep initialDrainState).read = content.length
    rw [foldl_unordered_read]
    simp only [initialDrainState, Nat.zero_add]
    have hs : ((unorderedEvents.map Prod.snd).map List.length).sum
        = (frags.map List.length).sum := ((hperm.map List.length).sum_eq).symm
    rw [hs, ← List.length_flatten, hjoin]
  rw [h1, h2]

/-- Witness for C6 at a concrete stream: content `[10, 20, 30]` drained as a
single ordered batch of two chunks, and as two unordered reads arriving in
swapped order. -/
theorem ordered_unordered_bytes_agree_witness :
    (∀ ev ∈ [(1, [[10, 20], [30]])], (Prod.snd ev).length ≤ 32) ∧
    (([(1, [[10, 20], [30]])].map Prod.snd).flatten.flatten = [10, 20, 30]) ∧
    (∃ frags : List (List Nat),
        List.Perm frags ([(2, [30]), (5, [10, 20])].map Prod.snd) ∧
        frags.flatten = [10, 20, 30]) ∧
    (drainOrdered [(1, [[10, 20], [30]])]).read
      = (drainUnordered [(2, [30]), (5, [10, 20])]).read :=
  ⟨by decide, by decide, ⟨[[10, 20], [30]], by decide, by decide⟩,
    ordered_unordered_bytes_agree [(1, [[10, 20], [30]])] [(2, [30]), (5, [10, 20])]
      [10, 20, 30] (by decide) (by decide)
      ⟨[[10, 20], [30]], by decide, by decide⟩⟩

/-- C7: in both drain arms, `time_to_first_byte` is assigned exactly once,
at the first successful read (the read delivering the first chunk), and
equals the elapsed duration since drain start observed there; no later read
changes it, whatever the remaining events are. -/
theorem ttfb_set_once (t1 : Nat) (c1 : List Nat) (es : List (Nat × List Nat))
    (t2 : Nat) (cs : List (List Nat)) (bs : List (Nat × List (List Nat)))
    (h : cs ≠ []) :
    (drainUnordered ((t1, c1) :: es)).time_to_first_byte = t1 ∧
    (drainOrdered ((t2, cs) :: bs)).time_to_first_byte = t2 := by
  constructor
  · show ((((t1, c1) :: es).foldl unorderedStep initialDrainState)).time_to_first_byte = t1
    simp only [List.foldl_cons]
    rw [foldl_unordered_ttfb es _ (by simp [unorderedStep, initialDrainState])]
    simp [unorderedStep, initialDrainState]
  · show ((((t2, cs) :: bs).foldl orderedStep initialOrderedState)).time_to_first_byte = t2
    simp only [List.foldl_cons]
    rw [foldl_ordered_ttfb bs _ (by simp [orderedStep, initialOrderedState])]
    simp [orderedStep, initialOrderedState]

/-- Witness for C7 at concrete streams with two reads each. -/
theorem ttfb_set_once_witness :
    (([[1]] : List (List Nat)) ≠ []) ∧
    ((drainUnordered [(4, [9]), (6, [8, 8])]).time_to_first_byte = 4 ∧
     (drainOrdered [(5, [[1]]), (7, [[2, 3]])]).time_to_first_byte = 5) :=
  ⟨by decide, ttfb_set_once 4 [9] [(6, [8, 8])] 5 [[1]] [(7, [[2, 3]])] (by decide)⟩

/-! ### Provider accept loop (transfer.rs lines 101-145)

One iteration of `while let Some(incoming) = endpoint.accept().await`
classified by where the incoming attempt fails.  `incoming.accept()` errors
hit the `Err` arm (warn + `continue`); `connecting.await?` (line 111) and
`get_remote_node_id(&conn)?` (line 112) use `?` in the loop body, so their
errors return from `provide`; a connection that reaches `tokio::spawn` is
handled in a detached task whose `Result` is discarded. -/

/-- Outcome of one incoming connection attempt on the Provider. -/
inductive IncomingResult
  /-- `incoming.accept()` returned `Err` (e.g. retransmission artifact). -/
  | acceptErr
  /-- `incoming.accept()` succeeded but `connecting.await` failed. -/
  | connectingErr
  /-- the connection completed but `get_remote_node_id` failed. -/
  | remoteIdErr
  /-- the connection was established and handed to a spawned task, which
  itself may fail (greeting read, UTF-8, send, ...). -/
  | connected (taskFailed : Bool)

/-- What the accept loop does after one attempt. -/
inductive LoopStep
  /-- next `endpoint.accept()` iteration; `warned` records the
  `tracing::warn!` of the `Err` arm. -/
  | continues (warned : Bool)
  /-- `provide` returns (the `?` operator propagates the error). -/
  | terminates

/-- Effect of one accept-loop iteration on the loop itself. -/
def provideLoopStep : IncomingResult → LoopStep
  | IncomingResult.acceptErr => LoopStep.continues true
  | IncomingResult.connectingErr => LoopStep.terminates
  | IncomingResult.remoteIdErr => LoopStep.terminates
  | IncomingResult.connected _ => LoopStep.continues false

/-- C1 fails as stated: a per-connection failure after acceptance — the
`connecting.await` error — terminates the accept loop via `?`. -/
theorem provide_loop_counterexample :
    provideLoopStep IncomingResult.connectingErr = LoopStep.terminates := rfl

/-- C1 amended: a rejected/malformed attempt (`incoming.accept()` error)
logs a warning and the loop continues, and a failure inside the spawned
per-connection task never terminates the loop; but an error while awaiting
connection establishment or while reading the remote node id propagates and
terminates the accept loop. -/
theorem provide_loop_failure_handling :
    provideLoopStep IncomingResult.acceptErr = LoopStep.continues true ∧
    (∀ b, provideLoopStep (IncomingResult.connected b) = LoopStep.continues false) ∧
    provideLoopStep IncomingResult.connectingErr = LoopStep.terminates ∧
    provideLoopStep IncomingResult.remoteIdErr = LoopStep.terminates :=
  ⟨rfl, fun _ => rfl, rfl, rfl⟩

/-! ### Fetcher tail: timed close and throughput report (transfer.rs lines 204-231)

After `drain_stream` returns `(len, time_to_first_byte, chnk)`, `fetch`
wraps `endpoint.close()` in `tokio::time::timeout(3s, ..).await?` — the `?`
propagates the `Elapsed` error — and only then evaluates
`duration = start.elapsed()` and prints the two report lines. -/

/-- The quantities printed by the two report lines of `fetch`. -/
structure ThroughputReport where
  bytes : Nat
  time_to_first_byte : Nat
  chunks : Nat
  elapsed : Nat

/-- How the 3-second close window ends. -/
inductive CloseOutcome
  /-- `endpoint.close()` returned `Ok` within the window. -/
  | closedOk
  /-- `endpoint.close()` returned `Err` within the window (printed,
  otherwise ignored). -/
  | closedErr
  /-- the window elapsed first: `timeout(..).await` yields `Err(Elapsed)`. -/
  | timedOut

/-- The tail of `fetch`: given the drain results, the close outcome, the
elapsed time when the close attempt begins and the time the close step
takes, either return the report or propagate the timeout error.  `elapsed`
in the report is `start.elapsed()` measured after the close step. -/
def fetchFinish (len ttfb chunks : Nat) (close : CloseOutcome)
    (elapsedAtClose closeDur : Nat) : Except String ThroughputReport :=
  match close with
  | CloseOutcome.timedOut => Except.error "deadline has elapsed"
  | _ =>
    Except.ok { bytes := len, time_to_first_byte := ttfb, chunks := chunks,
                elapsed := elapsedAtClose + closeDur }

/-- C3 fails as stated: a timeout of the close step makes `fetch` return the
propagated error, so no throughput report is emitted; and when the close
step takes time, the reported `elapsed` differs from the value at drain end,
so `elapsed` is not finalized before the close attempt begins. -/
theorem fetch_close_counterexample :
    fetchFinish 7 2 3 CloseOutcome.timedOut 4 1 = Except.error "deadline has elapsed" ∧
    fetchFinish 7 2 3 CloseOutcome.closedOk 4 1
      = Except.ok { bytes := 7, time_to_first_byte := 2, chunks := 3, elapsed := 5 } :=
  ⟨rfl, rfl⟩

/-- C3 amended: a failure of `endpoint.close()` inside the window is only
printed and the report with the drained metrics is still emitted, but a
timeout of the 3-second bound makes `fetch` return an error and no report is
emitted; `bytes_received`, time-to-first-byte and chunk count are finalized
before the close attempt, while `elapsed` is measured only after it. -/
theorem fetch_close_reporting (len ttfb chunks elapsedAtClose closeDur : Nat) :
    fetchFinish len ttfb chunks CloseOutcome.closedOk elapsedAtClose closeDur
      = Except.ok { bytes := len, time_to_first_byte := ttfb, chunks := chunks,
                    elapsed := elapsedAtClose + closeDur } ∧
    fetchFinish len ttfb chunks CloseOutcome.closedErr elapsedAtClose closeDur
      = Except.ok { bytes := len, time_to_first_byte := ttfb, chunks := chunks,
                    elapsed := elapsedAtClose + closeDur } ∧
    fetchFinish len ttfb chunks CloseOutcome.timedOut elapsedAtClose closeDur
      = Except.error "deadline has elapsed" :=
  ⟨rfl, rfl, rfl⟩

/-! ### Throughput rate (transfer.rs line 228)

`fetch` evaluates `(len as f64 / duration.as_secs_f64()) as u64` with no
guard.  IEEE-754 double division by an exactly zero divisor yields
`+inf` (for `len > 0`) or `NaN` (for `len = 0`), both non-finite; the
divisor is exactly `0.0` precisely when the elapsed duration is zero.  The
model keeps the exact value as a rational in the finite case. -/

/-- An IEEE-754 double that is either finite or non-finite (`inf`/`NaN`). -/
inductive F64Val
  | finite (q : ℚ)
  | nonFinite

/-- IEEE-754 division of `len` by `elapsed` seconds. -/
def f64Div (len : Nat) (elapsed : ℚ) : F64Val :=
  if elapsed = 0 then F64Val.nonFinite else F64Val.finite (len / elapsed)

/-- The bytes-per-second value `fetch` computes, unconditionally. -/
def reportedRate (len : Nat) (elapsed : ℚ) : F64Val := f64Div len elapsed

/-- C4 fails as stated: at a zero elapsed duration the computed rate is
non-finite (infinite), so the division is not guarded. -/
theorem rate_zero_elapsed_counterexample :
    reportedRate 1 0 = F64Val.nonFinite := by
  simp [reportedRate, f64Div]

/-- C4 amended: the division is performed with no guard, so a zero elapsed
duration always produces a non-finite (infinite or NaN) bytes-per-second
value, for every byte count. -/
theorem rate_zero_elapsed_nonfinite (len : Nat) :
    reportedRate len 0 = F64Val.nonFinite := by
  simp [reportedRate, f64Div]

/-! ### Send failure contexts (transfer.rs lines 292-310)

`send_data_on_stream` performs, in order, one `write_chunk` per emitted
chunk, then `finish()`, then `stopped().await`, attaching the contexts
`"failed sending data"`, `"failed finishing stream"` and
`"failed to wait for stream to be stopped"` respectively; the first failing
operation aborts the function with its context. -/

/-- A suspending stream operation of `send_data_on_stream`. -/
inductive SendOp
  | writeChunk (chunk : List Nat)
  | finish
  | stopped

/-- The `anyhow` context attached to each operation's failure. -/
def ctxOf : SendOp → String
  | SendOp.writeChunk _ => "failed sending data"
  | SendOp.finish => "failed finishing stream"
  | SendOp.stopped => "failed to wait for stream to be stopped"

/-- The operation sequence `send_data_on_stream` performs for size `S`:
the chunk writes of `sendChunks S`, then `finish`, then `stopped`. -/
def sendOps (S : Nat) : List SendOp :=
  (sendChunks S).map SendOp.writeChunk ++ [SendOp.finish, SendOp.stopped]

/-- Run the operations with a failure oracle `fails` (whether the i-th
operation fails); the first failure aborts with that operation's context. -/
def runSendOps (fails : Nat → Bool) : List SendOp → Nat → Except String Unit
  | [], _ => Except.ok ()
  | op :: rest, i =>
    if fails i then Except.error (ctxOf op) else runSendOps fails rest (i + 1)

/-- `send_data_on_stream` for size `S` against a stream whose i-th operation
fails exactly when `fails i`. -/
def send_data_on_stream (S : Nat) (fails : Nat → Bool) : Except String Unit :=
  runSendOps fails (sendOps S) 0

/-- The first operation the oracle fails, if any. -/
def firstFailingOp (fails : Nat → Bool) : List SendOp → Nat → Option SendOp
  | [], _ => none
  | op :: rest, i =>
    if fails i then some op else firstFailingOp fails rest (i + 1)

theorem runSendOps_error (fails : Nat → Bool) :
    ∀ (ops : List SendOp) (i : Nat) (e : String),
      runSendOps fails ops i = Except.error e →
      ∃ op, firstFailingOp fails ops i = some op ∧ e = ctxOf op := by
  intro ops
  induction ops with
  | nil => intro i e h; exact Except.noConfusion h
  | cons op rest ih =>
    intro i e h
    by_cases hf : fails i
    · refine ⟨op, ?_, ?_⟩
      · simp [firstFailingOp, hf]
      · simp only [runSendOps, hf, if_true] at h
        exact (Except.error.inj h).symm
    · simp only [runSendOps, hf, if_false] at h
      obtain ⟨op1, h1, h2⟩ := ih (i + 1) e h
      exact ⟨op1, by simp [firstFailingOp, hf, h1], h2⟩

/-- C8: whenever `send_data_on_stream` fails, its error carries the context
of the first failing operation, and that context is `"failed sending data"`
exactly when the failing operation was a chunk write — so a chunk-send
failure is always distinguishable from a finish/stop failure. -/
theorem send_error_contexts (S : Nat) (fails : Nat → Bool) (e : String)
    (h : send_data_on_stream S fails = Except.error e) :
    ∃ op, firstFailingOp fails (sendOps S) 0 = some op ∧ e = ctxOf op ∧
      ((∃ c, op = SendOp.writeChunk c) ↔ e = "failed sending data") := by
  obtain ⟨op, h1, h2⟩ := runSendOps_error fails (sendOps S) 0 e h
  refine ⟨op, h1, h2, ?_⟩
  subst h2
  cases op with
  | writeChunk c => exact iff_of_true ⟨c, rfl⟩ rfl
  | finish =>
    refine iff_of_false ?_ (by decide)
    rintro ⟨c, hc⟩
    exact SendOp.noConfusion hc
  | stopped =>
    refine iff_of_false ?_ (by decide)
    rintro ⟨c, hc⟩
    exact SendOp.noConfusion hc

/-- Witness for C8: size 0 with every operation failing — the first
operation is the stream finish, and its context is distinct from
`"failed sending data"`. -/
theorem send_error_contexts_witness :
    (send_data_on_stream 0 (fun _ => true) = Except.error "failed finishing stream") ∧
    (∃ op, firstFailingOp (fun _ => true) (sendOps 0) 0 = some op ∧
      "failed finishing stream" = ctxOf op ∧
      ((∃ c, op = SendOp.writeChunk c) ↔
        "failed finishing stream" = "failed sending data")) :=
  ⟨rfl, send_error_contexts 0 (fun _ => true) "failed finishing stream" rfl⟩

/-! ### AddressTicket codec

Modelled from the spec: the `NodeTicket` type and its string codec are
implemented in the iroh crate, outside the examined example sources; the
example only constructs one (`NodeTicket::new`, transfer.rs line 96) and
parses one (`ticket.parse()?`, line 152).  Per spec section 3 and 4.1 an
AddressTicket is `{ peer_identity: opaque fixed-length public identifier,
relay_hint: optional, direct_hints: ordered sequence }`, serialized to a
human-transportable token sequence; `decode` must reject malformed,
truncated or extended input instead of yielding a partially valid ticket.
The serialized form is modelled as a list of symbols: the 32 identity
bytes, then a relay tag (`0` absent, `1` present followed by the
length-prefixed hint), then the count of direct hints followed by each
hint length-prefixed. -/

/-- Modelled from the spec: a peer's identity plus its reachability hints. -/
structure AddressTicket where
  peer_identity : List Nat
  relay_hint : Option (List Nat)
  direct_hints : List (List Nat)

/-- Fixed length of the opaque public identifier (32-byte public key). -/
def ID_LEN : Nat := 32

/-- Decode failures of the ticket codec. -/
inductive ParseError
  | truncated
  | badTag
  | trailing

/-- A length-prefixed field. -/
def encodeField (f : List Nat) : List Nat := f.length :: f

/-- Serialization of the optional relay hint: tag then field. -/
def relayTagBytes : Option (List Nat) → List Nat
  | none => [0]
  | some r => 1 :: encodeField r

/-- Modelled from the spec: `encode(ticket) -> string`, total and
deterministic. -/
def encodeTicket (t : AddressTicket) : List Nat :=
  t.peer_identity ++ relayTagBytes t.relay_hint
    ++ t.direct_hints.length :: (t.direct_hints.map encodeField).flatten

/-- Read exactly `n` symbols or fail. -/
def readExact (n : Nat) (s : List Nat) : Except ParseError (List Nat × List Nat) :=
  if n ≤ s.length then Except.ok (s.take n, s.drop n) else Except.error ParseError.truncated

/-- Read one length-prefixed field. -/
def readField : List Nat → Except ParseError (List Nat × List Nat)
  | [] => Except.error ParseError.truncated
  | n :: rest => readExact n rest

/-- Read `k` length-prefixed fields. -/
def readFields : Nat → List Nat → Except ParseError (List (List Nat) × List Nat)
  | 0, s => Except.ok ([], s)
  | k + 1, s =>
    match readField s with
    | Except.error e => Except.error e
    | Except.ok (f, s1) =>
      match readFields k s1 with
      | Except.error e => Except.error e
      | Except.ok (fs, s2) => Except.ok (f :: fs, s2)

/-- Read the relay tag and, when present, the relay hint. -/
def readRelay (tag : Nat) (s : List Nat) :
    Except ParseError (Option (List Nat) × List Nat) :=
  if tag = 0 then Except.ok (none, s)
  else if tag = 1 then
    match readField s with
    | Except.error e => Except.error e
    | Except.ok (r, s1) => Except.ok (some r, s1)
  else Except.error ParseError.badTag

/-- Modelled from the spec: `decode(string) -> AddressTicket | ParseError`;
rejects any input that is not the exact encoding of a valid ticket
(truncated identity, unknown tag, truncated fields, trailing symbols). -/
def decodeTicket (s : List Nat) : Except ParseError AddressTicket :=
  match readExact ID_LEN s with
  | Except.error e => Except.error e
  | Except.ok (ident, s1) =>
    match s1 with
    | [] => Except.error ParseError.truncated
    | tag :: s2 =>
      match readRelay tag s2 with
      | Except.error e => Except.error e
      | Except.ok (relay, s3) =>
        match s3 with
        | [] => Except.error ParseError.truncated
        | cnt :: s4 =>
          match readFields cnt s4 with
          | Except.error e => Except.error e
          | Except.ok (hints, s5) =>
            match s5 with
            | [] => Except.ok ⟨ident, relay, hints⟩
            | _ :: _ => Except.error ParseError.trailing

theorem readExact_encode (l r : List Nat) : readExact l.length (l ++ r) = Except.ok (l, r) := by
  unfold readExact
  rw [if_pos (by simp)]
  rw [List.take_left, List.drop_left]

theorem readExact_inv (n : Nat) (s f r : List Nat)
    (h : readExact n s = Except.ok (f, r)) : f.length = n ∧ s = f ++ r := by
  unfold readExact at h
  split at h
  · next hle =>
    obtain ⟨hf, hr⟩ := Prod.mk.injEq .. ▸ Except.ok.inj h
    subst hf; subst hr
    exact ⟨by rw [List.length_take]; exact Nat.min_eq_left hle,
      (List.take_append_drop n s).symm⟩
  · exact Except.noConfusion h

theorem readField_encode (f rest : List Nat) :
    readField (encodeField f ++ rest) = Except.ok (f, rest) := by
  show readField (f.length :: (f ++ rest)) = Except.ok (f, rest)
  simp only [readField]
  exact readExact_encode f rest

theorem readField_inv (s f r : List Nat) (h : readField s = Except.ok (f, r)) :
    s = encodeField f ++ r := by
  cases s with
  | nil => exact Except.noConfusion h
  | cons n rest =>
    simp only [readField] at h
    obtain ⟨hf, hr⟩ := readExact_inv n rest f r h
    subst hr
    simp [encodeField, hf]

theorem readFields_encode (fs : List (List Nat)) :
    ∀ rest : List Nat,
      readFields fs.length ((fs.map encodeField).flatten ++ rest) = Except.ok (fs, rest) := by
  induction fs with
  | nil => intro rest; simp [readFields]
  | cons f fs ih =>
    intro rest
    simp only [List.map_cons, List.flatten_cons, List.length_cons, List.append_assoc]
    simp only [readFields, readField_encode f _, ih rest]

theorem readFields_inv :
    ∀ (k : Nat) (s : List Nat) (fs : List (List Nat)) (r : List Nat),
      readFields k s = Except.ok (fs, r) →
      fs.length = k ∧ s = (fs.map encodeField).flatten ++ r := by
  intro k
  induction k with
  | zero =>
    intro s fs r h
    simp only [readFields] at h
    obtain ⟨hf, hr⟩ := Prod.mk.injEq .. ▸ Except.ok.inj h
    subst hf; subst hr
    simp
  | succ k ih =>
    intro s fs r h
    simp only [readFields] at h
    split at h
    · exact Except.noConfusion h
    rename_i f s1 h1
    split at h
    · exact Except.noConfusion h
    rename_i fs1 s2 h2
    obtain ⟨hf, hr⟩ := Prod.mk.injEq .. ▸ Except.ok.inj h
    obtain ⟨hlen, hs1⟩ := ih s1 fs1 s2 h2
    refine ⟨?_, ?_⟩
    · rw [← hf]; simp [hlen]
    · rw [← hf, ← hr, readField_inv s f s1 h1, hs1]
      simp [List.append_assoc]

theorem readRelay_inv (tag : Nat) (s : List Nat) (relay : Option (List Nat))
    (s3 : List Nat) (h : readRelay tag s = Except.ok (relay, s3)) :
    tag :: s = relayTagBytes relay ++ s3 := by
  unfold readRelay at h
  split at h
  · rename_i h0
    obtain ⟨hf, hr⟩ := Prod.mk.injEq .. ▸ Except.ok.inj h
    rw [← hf, ← hr]
    simp [relayTagBytes, h0]
  · split at h
    · rename_i h1
      split at h
      · exact Except.noConfusion h
      rename_i r s1 hfl
      obtain ⟨hf, hr⟩ := Prod.mk.injEq .. ▸ Except.ok.inj h
      rw [← hf, ← hr, readField_inv s r s1 hfl]
      simp [relayTagBytes, h1]
    · exact Except.noConfusion h

theorem decode_encode (t : AddressTicket) (h : t.peer_identity.length = ID_LEN) :
    decodeTicket (encodeTicket t) = Except.ok t := by
  obtain ⟨pid, rh, dh⟩ := t
  simp only [] at h
  have hx : ∀ r : List Nat, readExact ID_LEN (pid ++ r) = Except.ok (pid, r) := by
    intro r; rw [← h]; exact readExact_encode pid r
  have hff := readFields_encode dh []
  rw [List.append_nil] at hff
  cases rh with
  | none =>
    have hshape : encodeTicket ⟨pid, none, dh⟩
        = pid ++ (0 :: dh.length :: (dh.map encodeField).flatten) := by
      simp [encodeTicket, relayTagBytes]
    rw [hshape]
    simp [decodeTicket, hx, readRelay, hff]
  | some rl =>
    have hshape : encodeTicket ⟨pid, some rl, dh⟩
        = pid ++ (1 :: rl.length :: (rl ++ dh.length :: (dh.map encodeField).flatten)) := by
      simp [encodeTicket, relayTagBytes, encodeField]
    rw [hshape]
    simp [decodeTicket, hx, readRelay, readField, readExact_encode, hff]

theorem decode_sound (s : List Nat) (t : AddressTicket)
    (h : decodeTicket s = Except.ok t) :
    s = encodeTicket t ∧ t.peer_identity.length = ID_LEN := by
  unfold decodeTicket at h
  split at h
  · exact Except.noConfusion h
  rename_i ident s1 h1
  obtain ⟨hidlen, hs⟩ := readExact_inv ID_LEN s ident s1 h1
  split at h
  · exact Except.noConfusion h
  rename_i tag s2
  split at h
  · exact Except.noConfusion h
  rename_i relay s3 h2
  have hrel := readRelay_inv tag s2 relay s3 h2
  split at h
  · exact Except.noConfusion h
  rename_i cnt s4
  split at h
  · exact Except.noConfusion h
  rename_i hints s5 h3
  obtain ⟨hcnt, hs4⟩ := readFields_inv cnt s4 hints s5 h3
  split at h
  · have ht : t = ⟨ident, relay, hints⟩ := (Except.ok.inj h).symm
    subst ht
    refine ⟨?_, hidlen⟩
    rw [hs, hrel, hs4, ← hcnt]
    simp [encodeTicket, List.append_assoc]
  · exact Except.noConfusion h

/-- C9: the ticket codec round-trips — `decode (encode t) = t` for every
valid ticket (identity of the fixed length) — and `decode` accepts only the
exact encoding of a valid ticket, so malformed, truncated or extended input
fails with a `ParseError` instead of yielding a partially valid ticket. -/
theorem ticket_codec_roundtrip :
    (∀ t : AddressTicket, t.peer_identity.length = ID_LEN →
      decodeTicket (encodeTicket t) = Except.ok t) ∧
    (∀ (s : List Nat) (t : AddressTicket), decodeTicket s = Except.ok t →
      s = encodeTicket t ∧ t.peer_identity.length = ID_LEN) :=
  ⟨decode_encode, decode_sound⟩

/-- Witness for C9 at a concrete valid ticket. -/
theorem ticket_codec_roundtrip_witness :
    ((List.replicate 32 7).length = ID_LEN) ∧
    decodeTicket (encodeTicket (AddressTicket.mk (List.replicate 32 7) (some [5, 6]) [[1], [2, 3]]))
      = Except.ok (AddressTicket.mk (List.replicate 32 7) (some [5, 6]) [[1], [2, 3]]) :=
  ⟨by decide,
    ticket_codec_roundtrip.1
      (AddressTicket.mk (List.replicate 32 7) (some [5, 6]) [[1], [2, 3]]) (by decide)⟩

/-! ### Greeting message (transfer.rs lines 198-202 and 123-127)

The Fetcher writes `format!("{me} is saying 'hello!'")` where `me` is its
node id; the Provider reads it with `recv.read_to_end(100)` and
`String::from_utf8`.  Modelled from the spec: the rendering of the node id
is implemented in the iroh crate outside the examined sources; per the spec
the identity is an opaque fixed-length public identifier (a 32-byte key),
displayed as its lowercase-hex digits — 64 ASCII characters. -/

/-- Lowercase-hex digit character code of a nibble. -/
def hexDigit (n : Nat) : Nat := if n < 10 then 48 + n else 87 + n

/-- Two hex digit character codes of one byte. -/
def hexByte (b : Nat) : List Nat := [hexDigit (b / 16), hexDigit (b % 16)]

/-- Modelled from the spec: the displayed form of a node identity (the hex
rendering of its key bytes). -/
def displayNodeId (key : List Nat) : List Nat := (key.map hexByte).flatten

/-- Byte codes of the greeting tail `" is saying 'hello!'"` (19 ASCII bytes). -/
def greetingSuffix : List Nat :=
  [32, 105, 115, 32, 115, 97, 121, 105, 110, 103, 32, 39, 104, 101, 108, 108, 111, 33, 39]

/-- The UTF-8 bytes of the Fetcher's greeting message for identity `key`. -/
def greetingBytes (key : List Nat) : List Nat := displayNodeId key ++ greetingSuffix

theorem displayNodeId_length (key : List Nat) :
    (displayNodeId key).length = 2 * key.length := by
  induction key with
  | nil => rfl
  | cons b bs ih =>
    have h2 : (hexByte b).length = 2 := rfl
    have ih2 : ((bs.map hexByte).flatten).length = 2 * bs.length := ih
    show (hexByte b ++ (bs.map hexByte).flatten).length = 2 * (b :: bs).length
    rw [List.length_append, h2, ih2, List.length_cons]
    omega

theorem hexDigit_ascii (n : Nat) (h : n ≤ 15) : hexDigit n < 128 := by
  unfold hexDigit
  split <;> omega

/-- C10: for every 32-byte node identity, the greeting message is 83 bytes
of pure ASCII — hence valid UTF-8 whose byte length never exceeds 100 — so
it always fits the Provider's `read_to_end(100)` bound and decodes with
`String::from_utf8`. -/
theorem greeting_bounded_ascii (key : List Nat) (hlen : key.length = 32)
    (hbytes : ∀ b ∈ key, b < 256) :
    (greetingBytes key).length = 83 ∧ (greetingBytes key).length ≤ 100 ∧
    ∀ c ∈ greetingBytes key, c < 128 := by
  have h1 : (greetingBytes key).length = 83 := by
    simp only [greetingBytes, List.length_append, displayNodeId_length, hlen]
    rfl
  refine ⟨h1, by omega, ?_⟩
  intro c hc
  rcases List.mem_append.mp hc with hdisp | hsuf
  · obtain ⟨l, hl, hcl⟩ := List.mem_flatten.mp hdisp
    obtain ⟨b, hb, rfl⟩ := List.mem_map.mp hl
    have hb256 := hbytes b hb
    simp only [hexByte, List.mem_cons, List.mem_singleton] at hcl
    rcases hcl with rfl | rfl | hfalse
    · exact hexDigit_ascii _ (by omega)
    · exact hexDigit_ascii _ (by omega)
    · exact absurd hfalse (List.not_mem_nil c)
  · have hall : ∀ x ∈ greetingSuffix, x < 128 := by decide
    exact hall c hsuf

/-- Witness for C10 at the all-zero identity. -/
theorem greeting_bounded_ascii_witness :
    ((List.replicate 32 0).length = 32) ∧ (∀ b ∈ List.replicate 32 0, b < 256) ∧
    ((greetingBytes (List.replicate 32 0)).length = 83 ∧
     (greetingBytes (List.replicate 32 0)).length ≤ 100 ∧
     ∀ c ∈ greetingBytes (List.replicate 32 0), c < 128) :=
  ⟨by decide, by decide,
    greeting_bounded_ascii (List.replicate 32 0) (by decide) (by decide)⟩

end Transfer
